import Mathlib

/-!
Verification development for the sitemap generator (src/utils.py, src/sitemap_obj.py,
src/conf.py, src/sitemap.py).

The Python source is shallowly embedded:
 - `is_url_valid` (src/utils.py) is embedded as an executable matcher for the exact
   regular expression in the source, including `re.IGNORECASE` semantics on ASCII and
   the ability of a final `$` to match just before one trailing newline.
 - `urlparse` is embedded only in the two projections the source uses
   (`.netloc` and `.scheme`), following CPython's `urlsplit`.
 - `SitemapObj.validate_update_url`, `SitemapObj.prepare`, `SitemapObj.__eq__`,
   `SitemapWalker.__head_request_coro`, `SitemapWalker.traverse_links`,
   `SitemapWalker.__group_execute_tasks` and `SitemapWalker.generate_sitemap` are
   embedded as pure functions; HTTP traffic is abstracted by oracles mapping a URL to
   the final (post-redirect) response for a HEAD request, resp. to the list of href
   attributes extracted from the page for a GET request.  Retries inside
   `__do_request` are folded into the oracle (the oracle answers `none` exactly when
   all attempts fail).
 - Python exceptions are embedded as `Except` values.  `datetime.strptime` is embedded
   as an executable parser for the one format string the source uses,
   `'%a, %d %b %Y %H:%M:%S %Z'`, with `%Z` accepting the always-present names
   UTC/GMT (local timezone names are environment dependent and not modelled).
-/

/-! ## ASCII character classes (re.IGNORECASE semantics) -/

/-- ASCII lower-casing on code points, the effect of `re.IGNORECASE` on `[A-Z]`. -/
def lowerN (n : Nat) : Nat := if 65 ≤ n ∧ n ≤ 90 then n + 32 else n

/-- Character class `[A-Z]` under `re.IGNORECASE`. -/
def isAlphaCI (c : Char) : Bool :=
  (65 ≤ c.toNat && c.toNat ≤ 90) || (97 ≤ c.toNat && c.toNat ≤ 122)

/-- Character class `\d` restricted to ASCII. -/
def isDigitC (c : Char) : Bool := 48 ≤ c.toNat && c.toNat ≤ 57

/-- Character class `[A-Z0-9]` under `re.IGNORECASE`. -/
def isAlnumCI (c : Char) : Bool := isAlphaCI c || isDigitC c

/-- Character class `[A-Z0-9-]` under `re.IGNORECASE`. -/
def isLdhCI (c : Char) : Bool := isAlnumCI c || c = '-'

/-- Character class `\s` (ASCII whitespace, as in the regex and in `%a`-format gaps). -/
def isSpaceC (c : Char) : Bool :=
  c = ' ' || c = '\t' || c = '\n' || c = '\r' || c = '\x0b' || c = '\x0c'

/-- Case-insensitive literal match: `pat` is a lowercase pattern; on success returns
the remainder of `l` after the matched prefix. -/
def matchCI : List Char → List Char → Option (List Char)
  | [], l => some l
  | _ :: _, [] => none
  | p :: ps, c :: cs => if lowerN c.toNat = p.toNat then matchCI ps cs else none

/-! ## The URL regex of `is_url_valid` (src/utils.py lines 5-14)

The regex is
`^(?:http)s?://`
`(?:(?:[A-Z0-9](?:[A-Z0-9-]{0,61}[A-Z0-9])?\.)+(?:[A-Z]{2,6}\.?|[A-Z0-9-]{2,}\.?)|`
`localhost|`
`\d{1,3}\.\d{1,3}\.\d{1,3}\.\d{1,3})`
`(?::\d+)?`
`(?:/?|[/?]\S+)$` with `re.IGNORECASE`, applied with `re.match` (anchored at the
start; the trailing `$` anchors the end, except that `$` may also match just before
one final newline).  Each nondeterministic piece is embedded as a function from the
input to the list of possible remainders. -/

/-- Tail `(?:/?|[/?]\S+)$`, deciding whether it consumes the whole remainder. -/
def tailMatch : List Char → Bool
  | [] => true
  | [c] => c = '/'
  | c :: rest => (c = '/' || c = '?') && rest.all (fun x => !(isSpaceC x))

/-- Greedy `\d+` followed by the tail: true iff some nonempty digit prefix can be
consumed so that `tailMatch` accepts the rest. -/
def portDigits : List Char → Bool
  | [] => false
  | c :: r => isDigitC c && (tailMatch r || portDigits r)

/-- `(?::\d+)?(?:/?|[/?]\S+)$` on the remainder after the host. -/
def portTailMatch (l : List Char) : Bool :=
  tailMatch l ||
    (match l with
     | ':' :: r => portDigits r
     | _ => false)

/-- Remainders of `(?:[A-Z0-9-]{0,61}[A-Z0-9])?` minus its empty alternative: at each
position the current character may be the final `[A-Z0-9]`, or (while the budget
lasts) one more `[A-Z0-9-]`. -/
def extRems : Nat → List Char → List (List Char)
  | _, [] => []
  | b, c :: r =>
    (if isAlnumCI c then [r] else []) ++
      (match b with
       | 0 => []
       | b' + 1 => if isLdhCI c then extRems b' r else [])

/-- Remainders of one label `[A-Z0-9](?:[A-Z0-9-]{0,61}[A-Z0-9])?`. -/
def labelRems : List Char → List (List Char)
  | [] => []
  | c :: r => if isAlnumCI c then r :: extRems 61 r else []

/-- Keep the remainders that start with a literal dot, consuming it. -/
def dotThen (rems : List (List Char)) : List (List Char) :=
  rems.filterMap fun r =>
    match r with
    | '.' :: r1 => some r1
    | _ => none

/-- Remainders of `(?:label\.)+` (one or more repetitions), fuelled; each repetition
consumes at least two characters, so fuel `l.length` is always enough. -/
def labelDotAux : Nat → List Char → List (List Char)
  | 0, _ => []
  | fuel + 1, l =>
    let r1 := dotThen (labelRems l)
    r1 ++ r1.flatMap (labelDotAux fuel)

/-- Remainders after a nonempty run of `[A-Z0-9-]` characters beyond the first,
helper for `{2,}`. -/
def ldhRemsAux : List Char → List (List Char)
  | [] => []
  | c :: r => if isLdhCI c then r :: ldhRemsAux r else []

/-- Remainders of `[A-Z0-9-]{2,}`. -/
def ldh2Rems : List Char → List (List Char)
  | [] => []
  | c :: r => if isLdhCI c then ldhRemsAux r else []

/-- Remainders of `[A-Z]{k}` for `2 ≤ k ≤ 6`. -/
def alphaKRems (l : List Char) : List (List Char) :=
  (List.range' 2 5).filterMap fun k =>
    if (l.take k).length = k && (l.take k).all isAlphaCI then some (l.drop k) else none

/-- Optional literal dot `\.?` applied to a set of remainders. -/
def optDot (rems : List (List Char)) : List (List Char) := rems ++ dotThen rems

/-- Remainders of the TLD part `(?:[A-Z]{2,6}\.?|[A-Z0-9-]{2,}\.?)`. -/
def tldRems (l : List Char) : List (List Char) :=
  optDot (alphaKRems l) ++ optDot (ldh2Rems l)

/-- Remainders of `\d{1,3}`. -/
def d13Rems (l : List Char) : List (List Char) :=
  (List.range' 1 3).filterMap fun k =>
    if (l.take k).length = k && (l.take k).all isDigitC then some (l.drop k) else none

/-- Remainders of the IP alternative `\d{1,3}\.\d{1,3}\.\d{1,3}\.\d{1,3}`. -/
def ipRems (l : List Char) : List (List Char) :=
  (dotThen (d13Rems l)).flatMap fun r1 =>
    (dotThen (d13Rems r1)).flatMap fun r2 =>
      (dotThen (d13Rems r2)).flatMap d13Rems

/-- Host group followed by optional port and the anchored tail. -/
def hostTailMatch (l : List Char) : Bool :=
  ((labelDotAux l.length l).flatMap tldRems).any portTailMatch ||
    (match matchCI "localhost".data l with
     | some r => portTailMatch r
     | none => false) ||
    (ipRems l).any portTailMatch

/-- Remainders of the scheme `(?:http)s?://` (case-insensitive). -/
def schemeRems (l : List Char) : List (List Char) :=
  match matchCI "http".data l with
  | none => []
  | some r =>
    (match matchCI "://".data r with
     | some r2 => [r2]
     | none => []) ++
      (match matchCI "s://".data r with
       | some r2 => [r2]
       | none => [])

/-- Whole-regex match anchored at both ends (without the newline allowance of `$`). -/
def urlCoreMatch (l : List Char) : Bool :=
  (schemeRems l).any hostTailMatch

/-- Embedding of `is_url_valid` (src/utils.py): `re.match` of the URL regex, where the
final `$` may also match just before one trailing newline. -/
def is_url_valid (s : String) : Bool :=
  urlCoreMatch s.data ||
    (if s.data.getLast? = some '\n' then urlCoreMatch s.data.dropLast else false)

/-! ## `urlparse` projections (CPython `urlsplit`) -/

/-- Characters allowed in a URL scheme by CPython `urlsplit`. -/
def isSchemeCharL (c : Char) : Bool := isAlnumCI c || c = '+' || c = '-' || c = '.'

/-- Lower-case a character list (ASCII). -/
def lowerL (l : List Char) : List Char := l.map fun c => Char.ofNat (lowerN c.toNat)

/-- CPython `urlsplit` scheme extraction: the prefix before the first `:`, provided it
is nonempty and made of scheme characters; returns (scheme lower-cased, rest). -/
def pySplitScheme (l : List Char) : List Char × List Char :=
  match l.findIdx? (fun c => c = ':') with
  | some i =>
    if 0 < i && (l.take i).all isSchemeCharL then (lowerL (l.take i), l.drop (i + 1))
    else ([], l)
  | none => ([], l)

/-- The `.netloc` attribute of `urlparse`: after removing the scheme, a netloc is
present iff the rest starts with `//`, and extends to the next `/`, `?` or `#`. -/
def urlparseNetloc (s : String) : String :=
  let rest := (pySplitScheme s.data).2
  match rest with
  | '/' :: '/' :: r => ⟨r.takeWhile fun c => !(c = '/' || c = '?' || c = '#')⟩
  | _ => ""

/-- The `.scheme` attribute of `urlparse`. -/
def urlparseScheme (s : String) : String := ⟨(pySplitScheme s.data).1⟩

/-! ## `SitemapObj.validate_update_url` (src/sitemap_obj.py lines 91-123) -/

/-- The second element of `exclude_list`:
`domain[:-1] if domain[-1] == '/' else domain + '/'` (for nonempty `domain`;
the Python code raises IndexError on an empty domain, which is outside the model). -/
def excludeAlt (domain : String) : String :=
  if domain.data.getLast? = some '/' then ⟨domain.data.dropLast⟩ else domain ++ "/"

/-- Python `url.split("#")[0]`: the prefix before the first `#`. -/
def cutFragment (s : String) : String := ⟨s.data.takeWhile fun c => c ≠ '#'⟩

/-- Embedding of the static method `SitemapObj.validate_update_url`.  `p_netloc` is
`p_url.netloc` for the parsed href (the only field of the parse the source reads). -/
def validate_update_url (p_netloc href domain netloc : String)
    (exclude_root : Bool) : Option String :=
  let exclude_list : List String := [domain, excludeAlt domain]
  let url0 : Option String :=
    if p_netloc = "" then some (domain ++ href)
    else if p_netloc = netloc then some href
    else none
  match url0 with
  | none => none
  | some url =>
    if url = "" then none
    else if !(is_url_valid url) then none
    else if exclude_root && decide (url ∈ exclude_list) then none
    else some (cutFragment url)


/-! ## `datetime.strptime` for `'%a, %d %b %Y %H:%M:%S %Z'`
(used by `SitemapObj.prepare`, src/sitemap_obj.py line 156)

Python `_strptime` builds a case-insensitive regex from the format: `%a`/`%b` become
alternations of locale abbreviations, `%d` is `3[01]|[12]\d|0[1-9]|[1-9]`, `%Y` is
`\d\d\d\d`, `%H` is `2[0-3]|[0-1]\d|\d`, `%M` is `[0-5]\d|\d`, `%S` is
`6[0-1]|[0-5]\d|\d`, `%Z` an alternation of timezone names (always including UTC and
GMT), and any whitespace in the format matches `\s+`; the whole input must be
consumed, and the resulting fields must form a valid `datetime` (so the day must fit
the month and the seconds must be below 60).  Because every field is followed by a
separator that is never a digit, the greedy two-digits-first parse below is
equivalent to the regex with backtracking. -/

/-- Parsed value of a `last-modified` header. -/
structure HDate where
  weekday : Nat
  day : Nat
  month : Nat
  year : Nat
  hour : Nat
  minute : Nat
  second : Nat
deriving DecidableEq, Repr

/-- Try each abbreviation in turn (case-insensitively); on success return its index
plus `base` and the remainder. -/
def pickAbbrev (base : Nat) : List String → List Char → Option (Nat × List Char)
  | [], _ => none
  | n :: ns, l =>
    match matchCI n.data l with
    | some r => some (base, r)
    | none => pickAbbrev (base + 1) ns l

def weekdayNames : List String := ["mon", "tue", "wed", "thu", "fri", "sat", "sun"]

def monthNames : List String :=
  ["jan", "feb", "mar", "apr", "may", "jun", "jul", "aug", "sep", "oct", "nov", "dec"]

/-- Consume `\s+` (at least one whitespace character, greedily). -/
def skipWs1 : List Char → Option (List Char)
  | [] => none
  | c :: r => if isSpaceC c then some (r.dropWhile isSpaceC) else none

def digitVal (c : Char) : Nat := c.toNat - 48

/-- Two-digit-or-one-digit numeric field whose two-digit values are restricted to
`lo2 ≤ v ≤ hi2` and whose one-digit values are restricted to `lo1 ≤ v`. -/
def parse21 (lo2 hi2 lo1 : Nat) : List Char → Option (Nat × List Char)
  | a :: b :: r =>
    if isDigitC a && isDigitC b then
      let v := digitVal a * 10 + digitVal b
      if lo2 ≤ v && v ≤ hi2 then some (v, r) else none
    else if isDigitC a && lo1 ≤ digitVal a then some (digitVal a, b :: r) else none
  | [a] => if isDigitC a && lo1 ≤ digitVal a then some (digitVal a, []) else none
  | [] => none

/-- `%d`: `3[01]|[12]\d|0[1-9]|[1-9]`. -/
def parseDay (l : List Char) : Option (Nat × List Char) := parse21 1 31 1 l

/-- `%H`: `2[0-3]|[0-1]\d|\d`. -/
def parseHour (l : List Char) : Option (Nat × List Char) := parse21 0 23 0 l

/-- `%M`: `[0-5]\d|\d`. -/
def parseMin (l : List Char) : Option (Nat × List Char) := parse21 0 59 0 l

/-- `%S`: `6[0-1]|[0-5]\d|\d`. -/
def parseSec (l : List Char) : Option (Nat × List Char) := parse21 0 61 0 l

/-- `%Y`: exactly four digits. -/
def parseYear : List Char → Option (Nat × List Char)
  | a :: b :: c :: d :: r =>
    if isDigitC a && isDigitC b && isDigitC c && isDigitC d then
      some (digitVal a * 1000 + digitVal b * 100 + digitVal c * 10 + digitVal d, r)
    else none
  | _ => none

/-- `%Z`: the timezone names that are always recognised. -/
def parseTZ (l : List Char) : Option (List Char) :=
  match matchCI "utc".data l with
  | some r => some r
  | none =>
    match matchCI "gmt".data l with
    | some r => some r
    | none => none

def isLeapYear (y : Nat) : Bool := (y % 4 = 0 && y % 100 ≠ 0) || y % 400 = 0

def daysInMonth (m y : Nat) : Nat :=
  if m = 2 then (if isLeapYear y then 29 else 28)
  else if m = 4 || m = 6 || m = 9 || m = 11 then 30
  else 31

/-- Embedding of `datetime.strptime(s, '%a, %d %b %Y %H:%M:%S %Z')`: `none` models the
`ValueError` raised on an unparsable date. -/
def http_date_parse (s : String) : Option HDate := do
  let (wd, r1) ← pickAbbrev 0 weekdayNames s.data
  let r2 ← match r1 with
           | ',' :: r => some r
           | _ => none
  let r3 ← skipWs1 r2
  let (d, r4) ← parseDay r3
  let r5 ← skipWs1 r4
  let (mo, r6) ← pickAbbrev 1 monthNames r5
  let r7 ← skipWs1 r6
  let (y, r8) ← parseYear r7
  let r9 ← skipWs1 r8
  let (h, r10) ← parseHour r9
  let r11 ← match r10 with
            | ':' :: r => some r
            | _ => none
  let (mi, r12) ← parseMin r11
  let r13 ← match r12 with
            | ':' :: r => some r
            | _ => none
  let (se, r14) ← parseSec r13
  let r15 ← skipWs1 r14
  let r16 ← parseTZ r15
  if r16 = [] && 1 ≤ y && 1 ≤ d && d ≤ daysInMonth mo y && se ≤ 59 then
    some ⟨wd, d, mo, y, h, mi, se⟩
  else none


/-! ## `SitemapObj`: descriptor, equality, `prepare` (src/sitemap_obj.py lines 25-156) -/

/-- The state of a `SitemapObj` after `prepare`: the (post-redirect) URL and the
optional parsed `last-modified` value. -/
structure SitemapObj where
  url : String
  lastMod : Option HDate
deriving DecidableEq, Repr

/-- The other operand of `SitemapObj.__eq__`: a URL string or another object. -/
inductive PyOperand
  | str (s : String)
  | obj (o : SitemapObj)

/-- Embedding of `SitemapObj.__eq__`.  The source tests `isinstance(other, str)` and
then, in the `elif`, tests `isinstance(other, str)` again (instead of `SitemapObj`),
so the second branch is unreachable and comparing two objects falls through to
`raise SitemapObjError("Uncomparable types")`, embedded as `Except.error`. -/
def sitemap_eq (self : SitemapObj) (other : PyOperand) : Except String Bool :=
  match other with
  | .str s => .ok (self.url == s)
  | .obj _ => .error "Uncomparable types"

/-- The final state of a HEAD request after redirects, as observed by `prepare`:
`aiohttp` resolves redirects automatically, so `url` is the final URL, and the two
headers the source reads are projected out. -/
structure Response where
  url : String
  status : Nat
  contentType : Option String
  lastModified : Option String

/-- Skip reasons of `prepare`.  The first four model `SitemapObjError` raises; `valueErr`
models the `ValueError` escaping from `datetime.strptime` (not a `SitemapObjError`). -/
inductive PrepError
  | requestFailed
  | badStatus (code : Nat)
  | noContentType
  | badContentType
  | valueErr (lm : String)
deriving DecidableEq, Repr

/-- Embedding of `re.compile(r'text/html').match(content_type)`: a case-sensitive
prefix match (the compile has no `re.IGNORECASE` flag). -/
def ctype_match (ct : String) : Bool := "text/html".data.isPrefixOf ct.data

/-- Embedding of `SitemapObj.prepare` given the oracle answer for the HEAD request
(`none` when every retry of `__do_request` failed).  Note that Python `if not x:`
also treats an empty header string as absent. -/
def prepare (r0 : Option Response) : Except PrepError SitemapObj :=
  match r0 with
  | none => .error .requestFailed
  | some r =>
    if r.status ≠ 200 then .error (.badStatus r.status)
    else
      match r.contentType with
      | none => .error .noContentType
      | some ct =>
        if ct = "" then .error .noContentType
        else if !(ctype_match ct) then .error .badContentType
        else
          match r.lastModified with
          | none => .ok { url := r.url, lastMod := none }
          | some lm =>
            if lm = "" then .ok { url := r.url, lastMod := none }
            else
              match http_date_parse lm with
              | some d => .ok { url := r.url, lastMod := some d }
              | none => .error (.valueErr lm)


/-! ## `SitemapWalker`: state, HEAD/GET phases, `traverse_links`
(src/sitemap_obj.py lines 202-324)

The driver is embedded with the one schedule in which the coroutines of a batch run
to completion one after the other — the cooperative event loop interleaves only at
`yield from` points and the visited-set updates happen between them, so this is a
faithful schedule of the source.  Every issued HTTP request is recorded in an event
log. -/

/-- One network request issued by the walker. -/
inductive Event
  | head (url : String)
  | get (url : String)
deriving DecidableEq, Repr

/-- The mutable per-crawl state of `SitemapWalker` (`__domain`, `__netloc`,
`__visited`); the visited set is kept as a list in insertion order, with membership
taken URL-wise exactly as Python set containment does through `__hash__`/`__eq__`. -/
structure WalkerState where
  domain : String
  netloc : String
  visited : List SitemapObj
deriving Repr

/-- Python `url in self.__visited` / `obj.url in self.__visited`: containment is
decided by the URL (both `hash` and `==` delegate to the `url` property). -/
def visitedHasUrl (v : List SitemapObj) (u : String) : Bool :=
  v.any fun o => o.url == u

/-- The redirect retarget of `__head_request_coro`: when the final URL differs from
the requested one and the level index is 0, `__netloc`/`__domain` are reassigned to
the redirect target (the one-time seed-level domain pivot); otherwise the state is
unchanged. -/
def retargetState (st : WalkerState) (obj : SitemapObj) (url : String) (lvlidx : Nat) :
    WalkerState :=
  if obj.url ≠ url ∧ lvlidx = 0 then
    { st with
      netloc := urlparseNetloc obj.url
      domain := urlparseScheme obj.url ++ "://" ++ urlparseNetloc obj.url }
  else st

/-- Embedding of `SitemapWalker.__head_request_coro` for one URL.  `oracle` answers
the HEAD request (`none`: all retries failed).  A `prepare` error models either the
caught `SitemapObjError` or the uncaught `ValueError` of an unparsable
`last-modified`; in both cases the coroutine ends without touching the state. -/
def headStep (oracle : String → Option Response) (lvlidx : Nat)
    (acc : WalkerState × List SitemapObj × List Event) (url : String) :
    WalkerState × List SitemapObj × List Event :=
  if visitedHasUrl acc.1.visited url then acc
  else
    let evs := acc.2.2 ++ [Event.head url]
    match prepare (oracle url) with
    | .error _ => (acc.1, acc.2.1, evs)
    | .ok obj =>
      if obj.url ≠ url ∧
          validate_update_url (urlparseNetloc obj.url) obj.url
            (retargetState acc.1 obj url lvlidx).domain
            (retargetState acc.1 obj url lvlidx).netloc (lvlidx != 0) = none then
        (retargetState acc.1 obj url lvlidx, acc.2.1, evs)
      else if visitedHasUrl (retargetState acc.1 obj url lvlidx).visited obj.url then
        (retargetState acc.1 obj url lvlidx, acc.2.1, evs)
      else
        ({ retargetState acc.1 obj url lvlidx with
            visited := (retargetState acc.1 obj url lvlidx).visited ++ [obj] },
          acc.2.1 ++ [obj], evs)

/-- The HEAD phase of one level: run `__head_request_coro` for every URL of the
level, starting from an empty `objs` list. -/
def headPhase (oracle : String → Option Response) (lvlidx : Nat) (st : WalkerState)
    (urls : List String) (evs : List Event) :
    WalkerState × List SitemapObj × List Event :=
  urls.foldl (headStep oracle lvlidx) (st, [], evs)

/-- One href inside `SitemapObj.process`: parse, validate and add to the next-level
set (Python `set.add`, embedded as append-if-absent). -/
def processHref (domain netloc : String) (nextlvl : List String) (href : String) :
    List String :=
  match validate_update_url (urlparseNetloc href) href domain netloc true with
  | none => nextlvl
  | some u => if u ∈ nextlvl then nextlvl else nextlvl ++ [u]

/-- Embedding of `SitemapObj.process`: `pages` answers the GET request with the list
of href attribute values of the page's anchors (`none`: the request failed and the
page contributes nothing). -/
def process (pages : String → Option (List String)) (domain netloc : String)
    (nextlvl : List String) (o : SitemapObj) : List String :=
  match pages o.url with
  | none => nextlvl
  | some hrefs => hrefs.foldl (processHref domain netloc) nextlvl

/-- The GET phase of one level (`__get_request_coro` over the accepted objects);
`domain`/`netloc` are fixed during it, since the walker mutates them only in the
level-0 HEAD phase. -/
def getPhase (pages : String → Option (List String)) (st : WalkerState)
    (objs : List SitemapObj) (evs : List Event) : List String × List Event :=
  objs.foldl
    (fun acc o => (process pages st.domain st.netloc acc.1 o, acc.2 ++ [Event.get o.url]))
    ([], evs)

/-- The `while thislvl:` loop of `traverse_links`.  `k` is `depth - lvlidx`: the loop
breaks after the HEAD phase when `lvlidx >= depth`, i.e. when `k = 0`. -/
def crawlLoop (oracle : String → Option Response)
    (pages : String → Option (List String)) :
    Nat → Nat → WalkerState → List String → List Event → WalkerState × List Event
  | k, lvlidx, st, thislvl, evs =>
    if thislvl = [] then (st, evs)
    else
      let r1 := headPhase oracle lvlidx st thislvl evs
      match k with
      | 0 => (r1.1, r1.2.2)
      | k' + 1 =>
        let r2 := getPhase pages r1.1 r1.2.1 r1.2.2
        crawlLoop oracle pages k' (lvlidx + 1) r1.1 r2.1 r2.2

/-- Embedding of `SitemapWalker.traverse_links` for a walker freshly constructed with
`domain`/`netloc` (so `__visited` is empty and `thislvl = {domain}`). -/
def traverse_links (oracle : String → Option Response)
    (pages : String → Option (List String)) (domain netloc : String) (depth : Nat) :
    WalkerState × List Event :=
  crawlLoop oracle pages depth 0 ⟨domain, netloc, []⟩ [domain] []

/-! ## `SitemapWalker.__group_execute_tasks` (src/sitemap_obj.py lines 282-304) -/

/-- One tuple produced by `itertools.zip_longest(*[iter(l)]*n)`: the next `n`
elements, padded with `None` (embedded as `none`). -/
def padTo (n : Nat) (g : List α) : List (Option α) :=
  g.map some ++ List.replicate (n - g.length) none

/-- Fuelled helper for `chunkPad`; each step consumes at least one list element, so
fuel `l.length` is always enough (the fuel-exhausted case is unreachable from
`chunkPad`). -/
def chunkPadAux : Nat → Nat → List α → List (List (Option α))
  | _, _, [] => []
  | _, 0, _ :: _ => []
  | 0, _ + 1, _ :: _ => []
  | f + 1, lim' + 1, x :: xs =>
    padTo (lim' + 1) ((x :: xs).take (lim' + 1)) :: chunkPadAux f (lim' + 1) (xs.drop lim')

/-- Embedding of `itertools.zip_longest(*[iter(l)]*lim)`: consecutive tuples of
exactly `lim` entries, the last one padded with `None`.  (For `lim = 0` the
`zip_longest` call receives no iterables and yields nothing.) -/
def chunkPad (lim : Nat) (l : List α) : List (List (Option α)) :=
  chunkPadAux l.length lim l

/-- The inner `for v in s: if not v: break; aiotasks.append(...)` of one group:
the `None` padding is falsy, but so is any falsy task (e.g. an empty string), and
`break` then skips the rest of the tuple. -/
def launchedOfGroup (truthy : α → Bool) (g : List (Option α)) : List α :=
  (g.takeWhile fun o =>
    match o with
    | some a => truthy a
    | none => false).filterMap id

/-- Embedding of `SitemapWalker.__group_execute_tasks`, recording which tasks are
launched in which batch; each batch is awaited by `loop.run_until_complete` before
the next one is formed.  The source uses `SELECTOR_LIMIT = 64` for `lim`; `truthy`
is Python truthiness on the task type. -/
def group_execute_tasks (lim : Nat) (truthy : α → Bool) (tasks : List α) :
    List (List α) :=
  (chunkPad lim tasks).map (launchedOfGroup truthy)

/-- Python truthiness of a string (`not v` is true exactly for the empty string). -/
def pyStrTruthy (s : String) : Bool := !(s == "")


/-! ## `SitemapWalker.generate_sitemap` (src/sitemap_obj.py lines 349-413)

The emitter is embedded at the file-structure level: which XML files are produced,
with which `url` entries, which `loc` references the index holds, which files go into
the archive, which are deleted, and which path is returned. -/

def SITEMAP_SIZE : Nat := 50000

def XML_PATH : String := "xml/"

/-- Python `xml.split('/')[-1]`: the suffix after the last `/` (the whole string when
no `/` occurs), computed by restarting the accumulator at every slash. -/
def lastPathComponent (s : String) : String :=
  ⟨s.data.foldl (fun acc c => if c = '/' then [] else acc ++ [c]) []⟩

/-- The archive branch of `generate_sitemap`: numbered chunk files with their
entries, the `sitemapindex` file and its `loc` texts, the archive members, the
deleted intermediates, and the returned path. -/
structure ArchiveOutput where
  chunks : List (String × List SitemapObj)
  indexFile : String
  indexLocs : List String
  zipMembers : List String
  removed : List String
  result : String
deriving Repr, DecidableEq

/-- Result of `generate_sitemap`: a single `.xml` file (with its entries), or a
`.zip` archive. -/
inductive SitemapOutput
  | single (file : String) (entries : List SitemapObj)
  | archive (a : ArchiveOutput)
deriving Repr, DecidableEq

/-- A `SitemapObj` is always truthy, so the `if not l: break` inside
`__generate_sitemap` only stops at the `None` padding. -/
def objTruthy (_ : SitemapObj) : Bool := true

/-- Embedding of `SitemapWalker.generate_sitemap` (the `visited` set is taken in
iteration order as a list). -/
def generate_sitemap (domain : String) (visited : List SitemapObj)
    (filename : String) : SitemapOutput :=
  if visited.length ≤ SITEMAP_SIZE then .single (filename ++ ".xml") visited
  else
    let sublists := chunkPad SITEMAP_SIZE visited
    let chunks := sublists.enum.map fun p =>
      (XML_PATH ++ "sitemap" ++ toString p.1 ++ ".xml", launchedOfGroup objTruthy p.2)
    let locs := chunks.map fun c => domain ++ "/" ++ lastPathComponent c.1
    let fileidx := filename ++ ".xml"
    .archive
      { chunks := chunks
        indexFile := fileidx
        indexLocs := locs
        zipMembers := chunks.map (fun c => c.1) ++ [fileidx]
        removed := chunks.map (fun c => c.1) ++ [fileidx]
        result := filename ++ ".zip" }

/-! ## Concrete oracles and result predicates used by the claims -/

/-- Is the result of `prepare` a content-type rejection (either of the two
`SitemapObjError` raises that concern the `content-type` header)? -/
def isCtReject : Except PrepError SitemapObj → Bool
  | .error .noContentType => true
  | .error .badContentType => true
  | _ => false

/-- HEAD oracle for the C5 crawl: the seed and the concatenation artefact both
answer 200/text-html without redirecting. -/
def oracleC5 : String → Option Response := fun u =>
  if u = "http://foo.com" then
    some ⟨"http://foo.com", 200, some "text/html", none⟩
  else if u = "http://foo.compage.html" then
    some ⟨"http://foo.compage.html", 200, some "text/html", none⟩
  else none

/-- GET oracle for the C5 crawl: the seed page contains one relative link. -/
def pagesC5 : String → Option (List String) := fun u =>
  if u = "http://foo.com" then some ["page.html"] else none



/-! ## Claim C6 material: the spec-side host grammar and the structured URL class

`specWellFormedHost` is written from the claim's words, not from the source: a
well-formed host is a domain name (dot-separated LDH labels that start and end
alphanumeric, at most 63 characters each), `localhost`, or a dotted IPv4 address; it
is the yardstick against which the regex's acceptance is compared.  The `Good*`
structures describe, field by field, the claim's class of valid absolute http(s)
URLs, and `renderUrl` prints one. -/

/-- Numeric value of a digit string. -/
def natOfDigits (l : List Char) : Nat :=
  l.foldl (fun a c => a * 10 + digitVal c) 0

/-- One host label per the claim's words: letters/digits/hyphens, starting and
ending alphanumeric, 1-63 characters. -/
def specLabelOk (l : List Char) : Bool :=
  match l with
  | [] => false
  | c :: _ =>
    isAlnumCI c && isAlnumCI (l.getLastD c) && l.all isLdhCI && l.length ≤ 63

/-- A domain name per the claim's words: at least two dot-separated labels. -/
def specDomainName (l : List Char) : Bool :=
  let parts := l.splitOn '.'
  2 ≤ parts.length && parts.all specLabelOk

/-- A dotted IPv4 address per the claim's words. -/
def specIpv4 (l : List Char) : Bool :=
  let parts := l.splitOn '.'
  parts.length = 4 &&
    parts.all fun p => p ≠ [] && p.length ≤ 3 && p.all isDigitC && natOfDigits p ≤ 255

/-- A well-formed host per the claim's words: domain name, `localhost` (any case),
or dotted IPv4. -/
def specWellFormedHost (s : String) : Bool :=
  specDomainName s.data || lowerL s.data = "localhost".data || specIpv4 s.data

/-- A well-formed host label: a single alphanumeric character, or an alphanumeric
character, up to 61 letters/digits/hyphens, and a final alphanumeric character. -/
inductive GoodLabel
  | single (c : Char) (h : isAlnumCI c = true)
  | multi (a : Char) (mid : List Char) (b : Char) (ha : isAlnumCI a = true)
      (hmid : ∀ c ∈ mid, isLdhCI c = true) (hb : isAlnumCI b = true)
      (hlen : mid.length ≤ 61)

def GoodLabel.render : GoodLabel → List Char
  | .single c _ => [c]
  | .multi a mid b _ _ _ _ => a :: (mid ++ [b])

/-- A top-level domain of 2-6 letters. -/
structure GoodTld where
  chars : List Char
  hall : ∀ c ∈ chars, isAlphaCI c = true
  h2 : 2 ≤ chars.length
  h6 : chars.length ≤ 6

/-- One group of a dotted IPv4 address: 1-3 digits. -/
structure IpPart where
  digits : List Char
  hne : digits ≠ []
  h3 : digits.length ≤ 3
  hall : ∀ c ∈ digits, isDigitC c = true

/-- A well-formed host: a domain name (labels then TLD), `localhost`, or an IPv4
quad. -/
inductive GoodHost
  | dom (labels : List GoodLabel) (hne : labels ≠ []) (tld : GoodTld)
  | localhost
  | ipv4 (p1 p2 p3 p4 : IpPart)

/-- Dot-terminated concatenation of the labels. -/
def renderLabels : List GoodLabel → List Char
  | [] => []
  | lb :: rest => lb.render ++ '.' :: renderLabels rest

def GoodHost.render : GoodHost → List Char
  | .dom labels _ tld => renderLabels labels ++ tld.chars
  | .localhost => "localhost".data
  | .ipv4 p1 p2 p3 p4 =>
    p1.digits ++ '.' :: (p2.digits ++ '.' :: (p3.digits ++ '.' :: p4.digits))

/-- An optional port: a colon and at least one digit. -/
structure GoodPort where
  digits : List Char
  hne : digits ≠ []
  hall : ∀ c ∈ digits, isDigitC c = true

def renderPort : Option GoodPort → List Char
  | none => []
  | some p => ':' :: p.digits

/-- An optional path/query: nothing, a bare slash, or a slash/question mark followed
by at least one more character, none of them whitespace. -/
inductive GoodTail
  | empty
  | slash
  | seg (c : Char) (rest : List Char) (hc : c = '/' ∨ c = '?') (hne : rest ≠ [])
      (hns : ∀ x ∈ rest, isSpaceC x = false)

def GoodTail.render : GoodTail → List Char
  | .empty => []
  | .slash => ['/']
  | .seg c rest _ _ _ => c :: rest

/-- A valid absolute http(s) URL per the claim's words. -/
structure GoodUrl where
  secure : Bool
  host : GoodHost
  port : Option GoodPort
  tail : GoodTail

def renderUrl (u : GoodUrl) : List Char :=
  (if u.secure then "https://".data else "http://".data) ++
    u.host.render ++ renderPort u.port ++ u.tail.render

/-- Characters CPython accepts in a URL scheme, used to describe the class of
non-http(s) schemes in the amended C6 claim. -/
def isSchemeOkChar (c : Char) : Bool := isAlnumCI c || c = '+' || c = '-' || c = '.'

/-- A concrete member of the structured URL class, for the C6 witness. -/
def goodUrlEx : GoodUrl :=
  { secure := false
    host := GoodHost.dom
      [GoodLabel.multi 'E' ['x'] 'a' (by decide) (by decide) (by decide) (by decide),
       GoodLabel.single 'b' (by decide)]
      (List.cons_ne_nil _ _)
      { chars := "com".data, hall := by decide, h2 := by decide, h6 := by decide }
    port := some { digits := ['8', '0'], hne := by decide, hall := by decide }
    tail := GoodTail.seg '/' "path?q=1".data (Or.inl rfl) (by decide) (by decide) }

/-! ## Sanity checks of the embedding on concrete inputs -/

example : is_url_valid "http://example.com" = true := by decide
example : is_url_valid "https://sub.example.com:8080/path?q=1" = true := by decide
example : is_url_valid "ftp://example.com" = false := by decide
example : is_url_valid "http://localhost:8000/" = true := by decide
example : is_url_valid "http://127.0.0.1/" = true := by decide
example : is_url_valid "http://example" = false := by decide
example : is_url_valid "http://example.com/#a" = true := by decide
example : urlparseNetloc "http://example.com/x" = "example.com" := by decide
example : urlparseNetloc "page.html" = "" := by decide
example : urlparseNetloc "/#a" = "" := by decide
example : validate_update_url "" "/#a" "http://e.com" "e.com" true =
    some "http://e.com/" := by decide
example : http_date_parse "Tue, 15 Nov 1994 08:12:31 GMT" =
    some ⟨1, 15, 11, 1994, 8, 12, 31⟩ := by decide
example : http_date_parse "not-a-date" = none := by decide
example : http_date_parse "Tue, 30 Feb 1994 08:12:31 GMT" = none := by decide
example : ctype_match "text/html; charset=utf-8" = true := by decide
example : ctype_match "Text/HTML" = false := by decide
example : group_execute_tasks 2 pyStrTruthy ["a", "b", "c"] = [["a", "b"], ["c"]] := by
  decide
example : group_execute_tasks 2 pyStrTruthy ["", "a"] = [[]] := by decide

/-! ## Shared helper lemmas -/

theorem takeWhile_eq_self_of_all {α : Type} {p : α → Bool} :
    ∀ (l : List α), (∀ c ∈ l, p c = true) → l.takeWhile p = l
  | [], _ => rfl
  | c :: r, h => by
    have hc : p c = true := h c (List.mem_cons_self ..)
    simp only [List.takeWhile, hc]
    exact congrArg (c :: ·) (takeWhile_eq_self_of_all r fun x hx => h x (List.mem_cons_of_mem _ hx))

/-- `url.split("#")[0]` is the identity on strings without `#`. -/
theorem cutFragment_eq_self (s : String) (h : '#' ∉ s.data) : cutFragment s = s := by
  unfold cutFragment
  have : s.data.takeWhile (fun c => decide (c ≠ '#')) = s.data := by
    refine takeWhile_eq_self_of_all s.data fun c hc => ?_
    simp only [decide_eq_true_iff]
    intro hcc
    exact h (hcc ▸ hc)
  rw [this]

/-! ## Claim C1 -/

/-- C1, counterexample: `validate_update_url` with `exclude_root = true` checks the
exclude list before stripping the fragment, so a relative href carrying only a
fragment after the root slash resolves to the bare domain root with a trailing
slash: the final returned value equals `domain ++ "/"`, which the claim says is
never returned. -/
theorem c1_counterexample :
    validate_update_url "" "/#a" "http://e.com" "e.com" true =
      some ("http://e.com" ++ "/") := by decide

/-- C1, amended: with `exclude_root = true` the URL checked against the exclude list
is the one before fragment stripping, and the exclude list is
`[domain, domain with trailing slash toggled]`; hence whenever neither `domain` nor
`href` contains `#`, the returned value differs from both `domain` and
`excludeAlt domain`. -/
theorem c1_amended (p_netloc href domain netloc u : String)
    (hdf : '#' ∉ domain.data) (hhf : '#' ∉ href.data)
    (h : validate_update_url p_netloc href domain netloc true = some u) :
    u ≠ domain ∧ u ≠ excludeAlt domain := by
  simp only [validate_update_url] at h
  split at h
  next heq => exact Option.noConfusion h
  next url heq =>
    have hurl : url = domain ++ href ∨ url = href := by
      by_cases h1 : p_netloc = ""
      · rw [if_pos h1] at heq
        exact Or.inl (Option.some.inj heq).symm
      · rw [if_neg h1] at heq
        by_cases h2 : p_netloc = netloc
        · rw [if_pos h2] at heq
          exact Or.inr (Option.some.inj heq).symm
        · rw [if_neg h2] at heq
          exact Option.noConfusion heq
    have hnof : '#' ∉ url.data := by
      rcases hurl with hu | hu
      · rw [hu, String.data_append]
        intro hmem
        rcases List.mem_append.mp hmem with hm | hm
        · exact hdf hm
        · exact hhf hm
      · rw [hu]; exact hhf
    split at h
    next => exact Option.noConfusion h
    split at h
    next => exact Option.noConfusion h
    split at h
    next => exact Option.noConfusion h
    next hg =>
      have hmem : url ∉ [domain, excludeAlt domain] := by
        intro hmem
        exact hg (by simp [hmem])
      have hu : u = url := by
        rw [cutFragment_eq_self url hnof] at h
        exact (Option.some.inj h).symm
      subst hu
      refine ⟨fun he => hmem ?_, fun he => hmem ?_⟩
      · rw [he]; exact List.mem_cons_self ..
      · rw [he]; exact List.mem_cons_of_mem _ (List.mem_cons_self ..)

/-- C1 witness: a concrete run of the amended statement. -/
theorem c1_amended_witness :
    "http://e.com/a" ≠ "http://e.com" ∧ "http://e.com/a" ≠ excludeAlt "http://e.com" :=
  c1_amended "" "/a" "http://e.com" "e.com" "http://e.com/a"
    (by decide) (by decide) (by decide)

/-! ## Claim C2 -/

/-- C2: comparing two `SitemapObj` descriptors does not succeed: because the `elif`
in `SitemapObj.__eq__` repeats `isinstance(other, str)` instead of testing for
`SitemapObj`, the object-object case falls through to
`raise SitemapObjError("Uncomparable types")` — even for two descriptors with the
same URL, which the intended equality (and Python set membership keyed by URL)
requires to compare as equal. -/
theorem c2_eq_raises :
    sitemap_eq { url := "http://e.com", lastMod := none }
        (PyOperand.obj { url := "http://e.com", lastMod := none }) =
      Except.error "Uncomparable types" := rfl

/-! ## Claim C3 -/

/-- C3, counterexample: a HEAD response that passes the status and content-type
checks but carries an unparsable `last-modified` makes `prepare` fail: the
`datetime.strptime` call raises `ValueError` (embedded as `PrepError.valueErr`),
which is not a `SitemapObjError` and escapes `prepare`, so no descriptor is
produced; the claim says `prepare` still succeeds with no lastModified field. -/
theorem c3_counterexample :
    http_date_parse "not-a-date" = none ∧
    prepare (some { url := "http://e.com", status := 200, contentType := some "text/html",
                    lastModified := some "not-a-date" }) =
      Except.error (PrepError.valueErr "not-a-date") :=
  ⟨rfl, rfl⟩

/-- C3, amended: for every HEAD response that passes the status and content-type
checks but carries a nonempty `last-modified` header that does not parse, `prepare`
fails with the escaped `ValueError`; the URL is therefore dropped from the crawl
(a soft skip), not recorded without a lastModified field. -/
theorem c3_amended (url ct lm : String) (hct1 : ct ≠ "") (hct2 : ctype_match ct = true)
    (hlm1 : lm ≠ "") (hlm2 : http_date_parse lm = none) :
    prepare (some { url := url, status := 200, contentType := some ct,
                    lastModified := some lm }) =
      Except.error (PrepError.valueErr lm) := by
  simp [prepare, hct1, hct2, hlm1, hlm2]

/-- C3 witness: the amended statement at a concrete response. -/
theorem c3_amended_witness :
    prepare (some { url := "http://e.com/x", status := 200,
                    contentType := some "text/html; charset=utf-8",
                    lastModified := some "Tue, 30 Feb 1994 08:12:31 GMT" }) =
      Except.error (PrepError.valueErr "Tue, 30 Feb 1994 08:12:31 GMT") :=
  c3_amended "http://e.com/x" "text/html; charset=utf-8" "Tue, 30 Feb 1994 08:12:31 GMT"
    (by decide) (by decide) (by decide) (by rfl)

/-! ## Claim C4 -/


/-- C4, counterexample: a 200 response whose content-type is `Text/HTML` is rejected
with the content-type skip reason, although `Text/HTML` does start with `text/html`
under a case-insensitive comparison (witnessed via ASCII lower-casing), because
`re.compile(r'text/html')` is compiled without `re.IGNORECASE`. -/
theorem c4_counterexample :
    prepare (some { url := "http://e.com", status := 200, contentType := some "Text/HTML",
                    lastModified := none }) = Except.error PrepError.badContentType ∧
    "text/html".data.isPrefixOf (lowerL "Text/HTML".data) = true :=
  ⟨rfl, by decide⟩

/-- C4, amended: `prepare` rejects a 200 response for its content-type exactly when
the `content-type` header is absent, empty, or does not start with the exact
(case-sensitive) string `text/html`. -/
theorem c4_amended (url : String) (ct lm : Option String) :
    isCtReject (prepare (some ⟨url, 200, ct, lm⟩)) = true ↔
      (ct = none ∨ ct = some "" ∨ ∃ s, ct = some s ∧ ctype_match s = false) := by
  cases ct with
  | none => simp [prepare, isCtReject]
  | some s =>
    by_cases hs : s = ""
    · subst hs
      simp [prepare, isCtReject]
    · by_cases hm : ctype_match s = true
      · have hL : isCtReject (prepare (some ⟨url, 200, some s, lm⟩)) = false := by
          cases lm with
          | none => simp [prepare, hs, hm, isCtReject]
          | some l =>
            by_cases hl : l = ""
            · simp [prepare, hs, hm, hl, isCtReject]
            · cases hp : http_date_parse l with
              | none => simp [prepare, hs, hm, hl, hp, isCtReject]
              | some d => simp [prepare, hs, hm, hl, hp, isCtReject]
        rw [hL]
        simp only [Bool.false_eq_true, false_iff]
        push_neg
        refine ⟨by simp, by simp [hs], fun t ht => ?_⟩
        rw [Option.some.inj ht] at hm
        simp [hm]
      · have hmf : ctype_match s = false := by
          cases hq : ctype_match s
          · rfl
          · exact absurd hq hm
        have hL : isCtReject (prepare (some ⟨url, 200, some s, lm⟩)) = true := by
          simp [prepare, hs, hmf, isCtReject]
        rw [hL]
        simp only [true_iff]
        exact Or.inr (Or.inr ⟨s, rfl, hmf⟩)

/-! ## Claim C10 -/

/-- C10: a relative href with no host component and not beginning with a slash is
resolved by bare string concatenation — `urlparse("page.html").netloc` is empty, so
`validate_update_url` builds `domain + href`; the concatenated string passes
`is_url_valid` and is returned, although its host component
`example.compage.html` differs from the crawl netloc `example.com`. -/
theorem c10_relative_concat :
    urlparseNetloc "page.html" = "" ∧
    validate_update_url (urlparseNetloc "page.html") "page.html" "http://example.com"
        "example.com" true = some "http://example.compage.html" ∧
    is_url_valid "http://example.compage.html" = true ∧
    urlparseNetloc "http://example.compage.html" = "example.compage.html" ∧
    ("example.compage.html" : String) ≠ "example.com" := by
  refine ⟨rfl, by decide, by decide, by decide, by decide⟩

/-! ## Claim C7 -/

/-- Event bookkeeping of one HEAD step: exactly one HEAD request is issued unless the
URL is already visited, and nothing else is logged. -/
theorem headStep_evs (oracle : String → Option Response) (lvl : Nat)
    (acc : WalkerState × List SitemapObj × List Event) (url : String) :
    (headStep oracle lvl acc url).2.2 =
      if visitedHasUrl acc.1.visited url then acc.2.2
      else acc.2.2 ++ [Event.head url] := by
  unfold headStep
  by_cases hv : visitedHasUrl acc.1.visited url
  · simp [hv]
  · simp only [hv, Bool.false_eq_true, if_false, if_neg hv]
    cases hp : prepare (oracle url) with
    | error e => rfl
    | ok obj =>
      simp only []
      split
      · rfl
      · split <;> rfl

/-- C7: a crawl configured with `depth = 0` issues exactly one HEAD request, for the
seed domain, and never any GET request: `traverse_links` breaks out of the loop
right after the level-0 HEAD phase, before its GET phase. -/
theorem c7_depth_zero (oracle : String → Option Response)
    (pages : String → Option (List String)) (domain netloc : String) :
    (traverse_links oracle pages domain netloc 0).2 = [Event.head domain] := by
  have h1 : ([domain] : List String) ≠ [] := by simp
  unfold traverse_links crawlLoop
  rw [if_neg h1]
  simp only [headPhase, List.foldl_cons, List.foldl_nil]
  rw [headStep_evs]
  simp [visitedHasUrl]

/-! ## Claim C5 -/



/-- C5, counterexample: in a depth-1 crawl seeded at `http://foo.com` whose page
links to the relative href `page.html`, the string-concatenated URL
`http://foo.compage.html` is HEAD-validated without a redirect at level 1 and is
added to `visited` without any re-validation, although its host
`foo.compage.html` differs from the crawl netloc, which never changed from
`foo.com` (no seed-level redirect occurred).  This refutes the claimed invariant
that every visited descriptor belongs to the current netloc. -/
theorem c5_counterexample :
    (traverse_links oracleC5 pagesC5 "http://foo.com" "foo.com" 1).1.visited =
      [⟨"http://foo.com", none⟩, ⟨"http://foo.compage.html", none⟩] ∧
    (traverse_links oracleC5 pagesC5 "http://foo.com" "foo.com" 1).1.netloc = "foo.com" ∧
    urlparseNetloc "http://foo.compage.html" ≠ "foo.com" :=
  ⟨rfl, rfl, by decide⟩

/-- C5, amended: the claimed invariant does hold at the seed level.  If the walker is
constructed consistently (`netloc` is the host of `domain`), then after the level-0
HEAD phase every descriptor in `visited` has a URL whose host equals the current
netloc — either no redirect happened and the URL is the seed domain itself, or the
one-time retarget re-pointed `netloc` at the redirect target before
`validate_update_url` re-checked it.  At deeper levels a URL that does not redirect
is added without re-validation, so the invariant fails there (see the
counterexample, where bare-concatenation resolution manufactures the foreign
host). -/
theorem c5_amended (oracle : String → Option Response) (domain netloc : String)
    (h : netloc = urlparseNetloc domain) :
    ∀ o ∈ (headPhase oracle 0 ⟨domain, netloc, []⟩ [domain] []).1.visited,
      urlparseNetloc o.url =
        (headPhase oracle 0 ⟨domain, netloc, []⟩ [domain] []).1.netloc := by
  unfold headPhase
  simp only [List.foldl_cons, List.foldl_nil]
  unfold headStep
  simp only [visitedHasUrl, List.any_nil, Bool.false_eq_true, if_false]
  cases hp : prepare (oracle domain) with
  | error e => simp
  | ok obj =>
    simp only []
    have hvis : (retargetState ⟨domain, netloc, []⟩ obj domain 0).visited = [] := by
      unfold retargetState
      split <;> rfl
    have hnet : urlparseNetloc obj.url =
        (retargetState ⟨domain, netloc, []⟩ obj domain 0).netloc := by
      unfold retargetState
      split
      · rfl
      next hc =>
        have hu : obj.url = domain := by
          by_contra hne
          exact hc ⟨hne, rfl⟩
        show urlparseNetloc obj.url = netloc
        rw [hu, h]
    split
    · simp [hvis]
    · split
      · simp [hvis]
      · simp only [hvis, List.nil_append]
        intro o ho
        have ho2 : o = obj := List.mem_singleton.mp ho
        rw [ho2]
        exact hnet

/-- C5 witness: the amended statement on the concrete C5 crawl, instantiated at the
descriptor that the level-0 HEAD phase adds to the visited set. -/
theorem c5_amended_witness :
    urlparseNetloc ({ url := "http://foo.com", lastMod := none } : SitemapObj).url =
      (headPhase oracleC5 0 ⟨"http://foo.com", "foo.com", []⟩
        ["http://foo.com"] []).1.netloc :=
  c5_amended oracleC5 "http://foo.com" "foo.com" (by decide)
    { url := "http://foo.com", lastMod := none } (by decide)

/-! ## Claim C8 -/

theorem length_takeWhile_le' {α : Type} (p : α → Bool) :
    ∀ (l : List α), (l.takeWhile p).length ≤ l.length
  | [] => Nat.le_refl 0
  | c :: r => by
    simp only [List.takeWhile]
    cases p c
    · simp
    · simpa using length_takeWhile_le' p r

/-- The padding added by `zip_longest` never survives `launchedOfGroup`, and a group
of entirely truthy tasks is launched in full. -/
theorem launched_padTo {α : Type} (truthy : α → Bool) :
    ∀ (g : List α) (n : Nat), (∀ t ∈ g, truthy t = true) →
      launchedOfGroup truthy (padTo n g) = g
  | [], n, _ => by
    unfold launchedOfGroup padTo
    cases n with
    | zero => rfl
    | succ m => simp [List.replicate, List.takeWhile]
  | a :: g, n, h => by
    have ht : truthy a = true := h a (List.mem_cons_self ..)
    have hrec := launched_padTo truthy g (n - 1)
      (fun t htm => h t (List.mem_cons_of_mem _ htm))
    unfold launchedOfGroup padTo at hrec ⊢
    have harith : n - (a :: g).length = (n - 1) - g.length := by
      simp only [List.length_cons]
      omega
    simp only [List.map_cons, List.cons_append, List.takeWhile, ht, harith,
      List.filterMap_cons, id, List.append_eq]
    rw [hrec]

/-- Every tuple produced by `zip_longest` has exactly `lim` entries. -/
theorem chunkPadAux_mem_length {α : Type} :
    ∀ (f lim : Nat) (l : List α) (g : List (Option α)),
      g ∈ chunkPadAux f lim l → g.length = lim
  | _, _, [], _, hg => absurd hg (by cases ‹Nat› <;> simp [chunkPadAux])
  | f, 0, x :: xs, g, hg => absurd hg (by cases f <;> simp [chunkPadAux])
  | 0, _ + 1, _ :: _, _, hg => absurd hg (by simp [chunkPadAux])
  | f + 1, lim' + 1, x :: xs, g, hg => by
    simp only [chunkPadAux, List.mem_cons] at hg
    rcases hg with hg | hg
    · rw [hg]
      unfold padTo
      have : ((x :: xs).take (lim' + 1)).length ≤ lim' + 1 := by
        rw [List.length_take]
        exact Nat.min_le_left ..
      simp only [List.length_append, List.length_map, List.length_replicate]
      omega
    · exact chunkPadAux_mem_length f (lim' + 1) (xs.drop lim') g hg

/-- With all-truthy tasks, the batches of `__group_execute_tasks` concatenate back to
the task list in order. -/
theorem chunkFlatten {α : Type} (truthy : α → Bool) :
    ∀ (f lim' : Nat) (l : List α), l.length ≤ f →
      (∀ t ∈ l, truthy t = true) →
      ((chunkPadAux f (lim' + 1) l).map (launchedOfGroup truthy)).flatten = l
  | 0, lim', l, hf, _ => by
    have : l = [] := List.eq_nil_of_length_eq_zero (Nat.le_zero.mp hf)
    subst this
    rfl
  | f + 1, lim', [], _, _ => rfl
  | f + 1, lim', x :: xs, hf, ht => by
    simp only [chunkPadAux, List.map_cons, List.flatten_cons]
    rw [launched_padTo truthy _ _ (fun t htm => ht t (List.mem_of_mem_take htm))]
    rw [chunkFlatten truthy f lim' (xs.drop lim')
      (by
        have := List.length_drop lim' xs
        simp only [List.length_cons] at hf
        omega)
      (fun t htm => ht t (List.mem_cons_of_mem _ (List.mem_of_mem_drop htm)))]
    have : xs.drop lim' = (x :: xs).drop (lim' + 1) := rfl
    rw [this, List.take_append_drop]

/-- C8, counterexample: with `limit = 2` and the item list `["", "a"]`, the empty
string is falsy, so `if not v: break` abandons the whole first (and only) group and
neither item is ever launched — the batches do not partition the items. -/
theorem c8_counterexample :
    (group_execute_tasks 2 pyStrTruthy ["", "a"]).flatten ≠ ["", "a"] := by decide

/-- C8, amended: provided every item is truthy (for URL strings: nonempty), the batch
executor partitions the items exactly — the launched groups concatenate, in order,
back to the input list (so each item is launched exactly once and each group
completes before the next starts), and every group holds at most `limit` items.  A
falsy item instead makes `if not v: break` skip the rest of its group (see the
counterexample). -/
theorem c8_amended {α : Type} (truthy : α → Bool) (lim : Nat) (tasks : List α)
    (hlim : 0 < lim) (ht : ∀ t ∈ tasks, truthy t = true) :
    ((group_execute_tasks lim truthy tasks).flatten = tasks) ∧
    (∀ g ∈ group_execute_tasks lim truthy tasks, g.length ≤ lim) := by
  obtain ⟨lim', rfl⟩ : ∃ lim', lim = lim' + 1 :=
    ⟨lim - 1, by omega⟩
  constructor
  · exact chunkFlatten truthy tasks.length lim' tasks (Nat.le_refl _) ht
  · intro g hg
    simp only [group_execute_tasks, List.mem_map] at hg
    obtain ⟨g0, hg0, rfl⟩ := hg
    have h1 : g0.length = lim' + 1 :=
      chunkPadAux_mem_length tasks.length (lim' + 1) tasks g0 hg0
    calc (launchedOfGroup truthy g0).length
        ≤ (g0.takeWhile _).length := List.length_filterMap_le ..
      _ ≤ g0.length := length_takeWhile_le' _ g0
      _ = lim' + 1 := h1

/-- C8 witness: the amended statement at `limit = 2` on three nonempty items. -/
theorem c8_amended_witness :
    ((group_execute_tasks 2 pyStrTruthy ["a", "b", "c"]).flatten = ["a", "b", "c"]) ∧
    (∀ g ∈ group_execute_tasks 2 pyStrTruthy ["a", "b", "c"], g.length ≤ 2) :=
  c8_amended pyStrTruthy 2 ["a", "b", "c"] (by decide) (by decide)

/-! ## Claim C9 -/

theorem chunkPadAux_nil {α : Type} (f lim : Nat) :
    chunkPadAux f lim ([] : List α) = [] := by
  cases f <;> cases lim <;> rfl

/-- Unfolding step of the `zip_longest` embedding for a nonempty list. -/
theorem chunkPadAux_step {α : Type} (f lim : Nat) (l : List α)
    (hf : 0 < f) (hlim : 0 < lim) (hl : l ≠ []) :
    chunkPadAux f lim l =
      padTo lim (l.take lim) :: chunkPadAux (f - 1) lim (l.drop lim) := by
  obtain ⟨f2, rfl⟩ : ∃ f2, f = f2 + 1 := ⟨f - 1, by omega⟩
  obtain ⟨lim2, rfl⟩ : ∃ lim2, lim = lim2 + 1 := ⟨lim - 1, by omega⟩
  obtain ⟨x, xs, rfl⟩ : ∃ x xs, l = x :: xs := by
    cases l with
    | nil => exact absurd rfl hl
    | cons x xs => exact ⟨x, xs, rfl⟩
  simp only [chunkPadAux, Nat.add_sub_cancel]
  rfl

set_option maxRecDepth 4000 in
/-- C9: emitting a visited set of 50001 descriptors (entry limit 50000) produces the
archive `filename ++ ".zip"` containing exactly the two chunk files
`xml/sitemap0.xml` (50000 entries) and `xml/sitemap1.xml` (1 entry) plus the index
file `filename ++ ".xml"` whose `sitemap/loc` children reference the two chunks as
`domain + "/" + basename`; both chunk files and the index are deleted after
archiving and the archive path is returned. -/
theorem c9_archive_split (domain filename : String) (visited : List SitemapObj)
    (h : visited.length = 50001) :
    generate_sitemap domain visited filename = SitemapOutput.archive
        { chunks := [("xml/sitemap0.xml", visited.take 50000),
                     ("xml/sitemap1.xml", visited.drop 50000)],
          indexFile := filename ++ ".xml",
          indexLocs := [domain ++ "/" ++ "sitemap0.xml", domain ++ "/" ++ "sitemap1.xml"],
          zipMembers := ["xml/sitemap0.xml", "xml/sitemap1.xml", filename ++ ".xml"],
          removed := ["xml/sitemap0.xml", "xml/sitemap1.xml", filename ++ ".xml"],
          result := filename ++ ".zip" } ∧
    (visited.take 50000).length = 50000 ∧ (visited.drop 50000).length = 1 := by
  have hlen2 : (visited.take 50000).length = 50000 := by
    rw [List.length_take]
    omega
  have hlen3 : (visited.drop 50000).length = 1 := by
    rw [List.length_drop]
    omega
  refine ⟨?_, hlen2, hlen3⟩
  have hns : ¬(visited.length ≤ SITEMAP_SIZE) := by
    simp only [SITEMAP_SIZE]
    omega
  have hne1 : visited ≠ [] := by
    intro hv
    rw [hv] at h
    simp at h
  have hne2 : visited.drop 50000 ≠ [] := by
    intro hv
    rw [hv] at hlen3
    simp at hlen3
  have hsub : chunkPad 50000 visited =
      [padTo 50000 (visited.take 50000), padTo 50000 (visited.drop 50000)] := by
    unfold chunkPad
    rw [h, chunkPadAux_step 50001 50000 visited (by omega) (by omega) hne1]
    norm_num
    rw [chunkPadAux_step 50000 50000 (visited.drop 50000) (by omega) (by omega) hne2]
    have htake : (visited.drop 50000).take 50000 = visited.drop 50000 :=
      List.take_of_length_le (by omega)
    have hdrop2 : (visited.drop 50000).drop 50000 = ([] : List SitemapObj) :=
      List.drop_eq_nil_of_le (by omega)
    rw [htake, hdrop2, chunkPadAux_nil]
  have hl0 : launchedOfGroup objTruthy (padTo 50000 (visited.take 50000)) =
      visited.take 50000 := launched_padTo objTruthy _ _ (fun t _ => rfl)
  have hl1 : launchedOfGroup objTruthy (padTo 50000 (visited.drop 50000)) =
      visited.drop 50000 := launched_padTo objTruthy _ _ (fun t _ => rfl)
  unfold generate_sitemap
  rw [if_neg hns]
  simp only [SITEMAP_SIZE, hsub]
  have henum : ([padTo 50000 (visited.take 50000),
      padTo 50000 (visited.drop 50000)]).enum =
      [(0, padTo 50000 (visited.take 50000)), (1, padTo 50000 (visited.drop 50000))] := rfl
  rw [henum]
  simp only [List.map_cons, List.map_nil, hl0, hl1]
  have hn0 : XML_PATH ++ "sitemap" ++ toString (0 : Nat) ++ ".xml" = "xml/sitemap0.xml" := by
    decide
  have hn1 : XML_PATH ++ "sitemap" ++ toString (1 : Nat) ++ ".xml" = "xml/sitemap1.xml" := by
    decide
  rw [hn0, hn1]
  have hlp0 : lastPathComponent "xml/sitemap0.xml" = "sitemap0.xml" := by decide
  have hlp1 : lastPathComponent "xml/sitemap1.xml" = "sitemap1.xml" := by decide
  simp only [hlp0, hlp1]
  rfl

/-- C9 witness: the statement at a concrete 50001-element visited list. -/
theorem c9_archive_split_witness :
    generate_sitemap "http://e.com"
        (List.replicate 50001 ({ url := "http://e.com/x", lastMod := none } : SitemapObj))
        "xml/out" = SitemapOutput.archive
        { chunks := [("xml/sitemap0.xml",
              (List.replicate 50001 ({ url := "http://e.com/x", lastMod := none } : SitemapObj)).take 50000),
            ("xml/sitemap1.xml",
              (List.replicate 50001 ({ url := "http://e.com/x", lastMod := none } : SitemapObj)).drop 50000)],
          indexFile := "xml/out" ++ ".xml",
          indexLocs := ["http://e.com" ++ "/" ++ "sitemap0.xml",
            "http://e.com" ++ "/" ++ "sitemap1.xml"],
          zipMembers := ["xml/sitemap0.xml", "xml/sitemap1.xml", "xml/out" ++ ".xml"],
          removed := ["xml/sitemap0.xml", "xml/sitemap1.xml", "xml/out" ++ ".xml"],
          result := "xml/out" ++ ".zip" } ∧
    ((List.replicate 50001 ({ url := "http://e.com/x", lastMod := none } : SitemapObj)).take 50000).length = 50000 ∧
    ((List.replicate 50001 ({ url := "http://e.com/x", lastMod := none } : SitemapObj)).drop 50000).length = 1 :=
  c9_archive_split "http://e.com" "xml/out"
    (List.replicate 50001 ({ url := "http://e.com/x", lastMod := none } : SitemapObj))
    (by rw [List.length_replicate])

/-! ## Claim C6 -/

theorem matchCI_localhost (rest : List Char) :
    matchCI "localhost".data ("localhost".data ++ rest) = some rest := rfl

theorem schemeRems_http (rest : List Char) :
    schemeRems (['h', 't', 't', 'p', ':', '/', '/'] ++ rest) = [rest] := rfl

theorem schemeRems_https (rest : List Char) :
    schemeRems (['h', 't', 't', 'p', 's', ':', '/', '/'] ++ rest) = [rest] := rfl

theorem tailMatch_good (t : GoodTail) : tailMatch t.render = true := by
  cases t with
  | empty => rfl
  | slash => rfl
  | seg c rest hc hne hns =>
    cases rest with
    | nil => exact absurd rfl hne
    | cons r0 rr =>
      have hc2 : (decide (c = '/') || decide (c = '?')) = true := by
        rcases hc with h | h <;> simp [h]
      show ((c = '/' || c = '?') && (r0 :: rr).all fun x => !(isSpaceC x)) = true
      simp only [hc2, Bool.true_and]
      exact List.all_eq_true.mpr fun x hx => by simp [hns x hx]

theorem portDigits_append (trender : List Char) (htail : tailMatch trender = true) :
    ∀ (ds : List Char), ds ≠ [] → (∀ c ∈ ds, isDigitC c = true) →
      portDigits (ds ++ trender) = true
  | [], hne, _ => absurd rfl hne
  | [d], _, hd => by
    have h1 : isDigitC d = true := hd d (List.mem_cons_self ..)
    show (isDigitC d && (tailMatch trender || portDigits trender)) = true
    simp [h1, htail]
  | d :: d2 :: ds, _, hd => by
    have h1 : isDigitC d = true := hd d (List.mem_cons_self ..)
    have h2 := portDigits_append trender htail (d2 :: ds) (by simp)
      (fun c hc => hd c (List.mem_cons_of_mem _ hc))
    show (isDigitC d &&
      (tailMatch ((d2 :: ds) ++ trender) || portDigits ((d2 :: ds) ++ trender))) = true
    simp only [h1, Bool.true_and, Bool.or_eq_true, List.cons_append]
    exact Or.inr h2

theorem portTail_good (p : Option GoodPort) (t : GoodTail) :
    portTailMatch (renderPort p ++ t.render) = true := by
  cases p with
  | none =>
    simp only [renderPort, List.nil_append, portTailMatch]
    simp [tailMatch_good t]
  | some gp =>
    simp only [renderPort, List.cons_append, portTailMatch]
    have := portDigits_append t.render (tailMatch_good t) gp.digits gp.hne gp.hall
    simp [this]

theorem extRems_mem :
    ∀ (mid : List Char) (bnd : Nat) (b : Char) (rest : List Char),
      (∀ c ∈ mid, isLdhCI c = true) → mid.length ≤ bnd → isAlnumCI b = true →
      rest ∈ extRems bnd (mid ++ b :: rest)
  | [], bnd, b, rest, _, _, hb => by
    cases bnd with
    | zero => simp [extRems, hb]
    | succ m => simp [extRems, hb]
  | c :: mid2, bnd, b, rest, hmid, hlen, hb => by
    obtain ⟨bnd2, rfl⟩ : ∃ bnd2, bnd = bnd2 + 1 := by
      cases bnd with
      | zero => simp at hlen
      | succ m => exact ⟨m, rfl⟩
    have hc : isLdhCI c = true := hmid c (List.mem_cons_self ..)
    have hrec := extRems_mem mid2 bnd2 b rest
      (fun x hx => hmid x (List.mem_cons_of_mem _ hx))
      (by simp only [List.length_cons] at hlen; omega) hb
    simp only [List.cons_append, extRems, hc, if_true]
    exact List.mem_append.mpr (Or.inr hrec)

theorem labelRems_mem (lb : GoodLabel) (rest : List Char) :
    rest ∈ labelRems (lb.render ++ rest) := by
  cases lb with
  | single c h =>
    simp only [GoodLabel.render, List.cons_append, List.nil_append, labelRems, h, if_true]
    exact List.mem_cons_self ..
  | multi a mid b ha hmid hb hlen =>
    simp only [GoodLabel.render, List.cons_append, labelRems, ha, if_true]
    refine List.mem_cons_of_mem _ ?_
    have hsh : (mid ++ [b]) ++ rest = mid ++ b :: rest := by
      rw [List.append_assoc]
      rfl
    rw [hsh]
    exact extRems_mem mid 61 b rest hmid hlen hb

theorem dotThen_mem {rems : List (List Char)} {r : List Char}
    (h : ('.' :: r) ∈ rems) : r ∈ dotThen rems := by
  unfold dotThen
  exact List.mem_filterMap.mpr ⟨'.' :: r, h, rfl⟩

theorem labelDot_mem :
    ∀ (labels : List GoodLabel) (fuel : Nat) (tail : List Char),
      labels ≠ [] → labels.length ≤ fuel →
      tail ∈ labelDotAux fuel (renderLabels labels ++ tail)
  | [], _, _, hne, _ => absurd rfl hne
  | lb :: rls, fuel, tail, _, hfuel => by
    obtain ⟨f, rfl⟩ : ∃ f, fuel = f + 1 := by
      cases fuel with
      | zero => simp at hfuel
      | succ m => exact ⟨m, rfl⟩
    simp only [labelDotAux]
    have hshape : renderLabels (lb :: rls) ++ tail =
        lb.render ++ ('.' :: (renderLabels rls ++ tail)) := by
      simp only [renderLabels, List.append_assoc, List.cons_append]
    have hmem1 : (renderLabels rls ++ tail) ∈
        dotThen (labelRems (renderLabels (lb :: rls) ++ tail)) := by
      rw [hshape]
      exact dotThen_mem (labelRems_mem lb _)
    cases rls with
    | nil =>
      refine List.mem_append.mpr (Or.inl ?_)
      simpa only [renderLabels, List.nil_append] using hmem1
    | cons lb2 rls2 =>
      refine List.mem_append.mpr (Or.inr ?_)
      refine List.mem_flatMap.mpr ⟨renderLabels (lb2 :: rls2) ++ tail, hmem1, ?_⟩
      exact labelDot_mem (lb2 :: rls2) f tail (by simp)
        (by simp only [List.length_cons] at hfuel ⊢; omega)

theorem tldRems_mem (t : GoodTld) (rest : List Char) :
    rest ∈ tldRems (t.chars ++ rest) := by
  refine List.mem_append.mpr (Or.inl (List.mem_append.mpr (Or.inl ?_)))
  unfold alphaKRems
  refine List.mem_filterMap.mpr ⟨t.chars.length, ?_, ?_⟩
  · refine List.mem_range'_1.mpr ⟨t.h2, ?_⟩
    have := t.h6
    omega
  · rw [List.take_left' rfl, List.drop_left' rfl]
    have h1 : t.chars.all isAlphaCI = true := List.all_eq_true.mpr t.hall
    simp [h1]

theorem d13Rems_mem (p : IpPart) (rest : List Char) :
    rest ∈ d13Rems (p.digits ++ rest) := by
  unfold d13Rems
  refine List.mem_filterMap.mpr ⟨p.digits.length, ?_, ?_⟩
  · refine List.mem_range'_1.mpr ⟨List.length_pos.mpr p.hne, ?_⟩
    have := p.h3
    omega
  · rw [List.take_left' rfl, List.drop_left' rfl]
    have h1 : p.digits.all isDigitC = true := List.all_eq_true.mpr p.hall
    simp [h1]

theorem ipRems_mem (p1 p2 p3 p4 : IpPart) (rest : List Char) :
    rest ∈ ipRems (p1.digits ++ '.' ::
      (p2.digits ++ '.' :: (p3.digits ++ '.' :: (p4.digits ++ rest)))) := by
  unfold ipRems
  refine List.mem_flatMap.mpr ⟨p2.digits ++ '.' :: (p3.digits ++ '.' :: (p4.digits ++ rest)),
    dotThen_mem (d13Rems_mem p1 _), ?_⟩
  refine List.mem_flatMap.mpr ⟨p3.digits ++ '.' :: (p4.digits ++ rest),
    dotThen_mem (d13Rems_mem p2 _), ?_⟩
  refine List.mem_flatMap.mpr ⟨p4.digits ++ rest, dotThen_mem (d13Rems_mem p3 _), ?_⟩
  exact d13Rems_mem p4 rest

theorem renderLabels_length : ∀ (labels : List GoodLabel),
    labels.length ≤ (renderLabels labels).length
  | [] => Nat.le_refl 0
  | lb :: rls => by
    have h1 : 1 ≤ lb.render.length := by
      cases lb <;> simp [GoodLabel.render]
    have h2 := renderLabels_length rls
    simp only [renderLabels, List.length_append, List.length_cons]
    omega

theorem hostTail_good (h : GoodHost) (p : Option GoodPort) (t : GoodTail) :
    hostTailMatch (h.render ++ (renderPort p ++ t.render)) = true := by
  have hpt : portTailMatch (renderPort p ++ t.render) = true := portTail_good p t
  cases h with
  | dom labels hne tld =>
    simp only [GoodHost.render, List.append_assoc]
    unfold hostTailMatch
    have hfuel : labels.length ≤
        (renderLabels labels ++ (tld.chars ++ (renderPort p ++ t.render))).length := by
      have h1 := renderLabels_length labels
      simp only [List.length_append]
      omega
    have hm1 : (tld.chars ++ (renderPort p ++ t.render)) ∈
        labelDotAux (renderLabels labels ++ (tld.chars ++ (renderPort p ++ t.render))).length
          (renderLabels labels ++ (tld.chars ++ (renderPort p ++ t.render))) :=
      labelDot_mem labels _ _ hne hfuel
    have hm2 : (renderPort p ++ t.render) ∈
        tldRems (tld.chars ++ (renderPort p ++ t.render)) := tldRems_mem tld _
    have hA := List.any_eq_true.mpr
      ⟨renderPort p ++ t.render, List.mem_flatMap.mpr
        ⟨tld.chars ++ (renderPort p ++ t.render), hm1, hm2⟩, hpt⟩
    rw [hA]
    simp
  | localhost =>
    simp only [GoodHost.render]
    unfold hostTailMatch
    rw [matchCI_localhost]
    simp [hpt]
  | ipv4 p1 p2 p3 p4 =>
    simp only [GoodHost.render, List.append_assoc, List.cons_append]
    unfold hostTailMatch
    have hC := List.any_eq_true.mpr
      ⟨renderPort p ++ t.render, ipRems_mem p1 p2 p3 p4 _, hpt⟩
    rw [hC]
    simp

theorem goodUrl_accepted (u : GoodUrl) : is_url_valid ⟨renderUrl u⟩ = true := by
  have hcore : urlCoreMatch (renderUrl u) = true := by
    unfold urlCoreMatch renderUrl
    cases hs : u.secure with
    | false =>
      rw [if_neg (by simp : ¬(false = true))]
      simp only [List.append_assoc]
      rw [schemeRems_http]
      simp [hostTail_good u.host u.port u.tail]
    | true =>
      rw [if_pos rfl]
      simp only [List.append_assoc]
      rw [schemeRems_https]
      simp [hostTail_good u.host u.port u.tail]
  unfold is_url_valid
  show (urlCoreMatch (renderUrl u) || _) = true
  rw [hcore]
  simp

theorem matchCI_sep : ∀ (pat : List Char), (∀ p ∈ pat, p.toNat ≠ 58) →
    ∀ (sch mid : List Char), (∀ c ∈ sch, isSchemeOkChar c = true) →
      matchCI pat (sch ++ ':' :: mid) =
        (if pat.length ≤ sch.length then
          (if (sch.take pat.length).map (fun c => lowerN c.toNat) = pat.map Char.toNat
           then some (sch.drop pat.length ++ ':' :: mid) else none)
         else none)
  | [], _, sch, mid, _ => by simp [matchCI]
  | p :: ps, hpat, [], mid, _ => by
    have hp := hpat p (List.mem_cons_self ..)
    show (if lowerN ':'.toNat = p.toNat then matchCI ps mid else none) = _
    rw [show lowerN ':'.toNat = 58 from by decide]
    rw [if_neg (fun h => hp h.symm), if_neg (by simp)]
  | p :: ps, hpat, c :: sch2, mid, hs => by
    have hrec := matchCI_sep ps (fun q hq => hpat q (List.mem_cons_of_mem _ hq)) sch2 mid
      (fun x hx => hs x (List.mem_cons_of_mem _ hx))
    show (if lowerN c.toNat = p.toNat then matchCI ps (sch2 ++ ':' :: mid) else none) = _
    by_cases hc : lowerN c.toNat = p.toNat
    · rw [if_pos hc, hrec]
      simp only [List.length_cons, List.take_succ_cons, List.map_cons, List.drop_succ_cons,
        Nat.add_le_add_iff_right, hc, List.cons.injEq, eq_self_iff_true, true_and]
    · rw [if_neg hc]
      simp only [List.length_cons, List.take_succ_cons, List.map_cons, List.drop_succ_cons,
        Nat.add_le_add_iff_right, List.cons.injEq]
      by_cases hlen : ps.length ≤ sch2.length
      · rw [if_pos hlen, if_neg (fun hq => hc (And.left hq))]
      · rw [if_neg hlen]

theorem schemeOkChar_ne_colon (c : Char) (h : isSchemeOkChar c = true) :
    lowerN c.toNat ≠ 58 := by
  have hn : (65 ≤ c.toNat ∧ c.toNat ≤ 90) ∨ (97 ≤ c.toNat ∧ c.toNat ≤ 122) ∨
      (48 ≤ c.toNat ∧ c.toNat ≤ 57) ∨ c.toNat = 43 ∨ c.toNat = 45 ∨ c.toNat = 46 := by
    unfold isSchemeOkChar isAlnumCI isAlphaCI isDigitC at h
    simp only [Bool.or_eq_true, Bool.and_eq_true, decide_eq_true_eq] at h
    rcases h with ((((h1 | h1) | h1) | h1) | h1) | h1
    · exact Or.inl h1
    · exact Or.inr (Or.inl h1)
    · exact Or.inr (Or.inr (Or.inl h1))
    · exact Or.inr (Or.inr (Or.inr (Or.inl (by rw [h1]; rfl))))
    · exact Or.inr (Or.inr (Or.inr (Or.inr (Or.inl (by rw [h1]; rfl)))))
    · exact Or.inr (Or.inr (Or.inr (Or.inr (Or.inr (by rw [h1]; rfl)))))
  rcases hn with h1 | h1 | h1 | h1 | h1 | h1 <;> · unfold lowerN; split <;> omega

/-- The scheme part of the URL regex fails on every `scheme://` whose scheme is made
of scheme characters but does not lower-case to `http` or `https`. -/
theorem schemeRems_sep_nil (sch mid : List Char)
    (hs : ∀ c ∈ sch, isSchemeOkChar c = true)
    (h1 : sch.map (fun c => lowerN c.toNat) ≠ "http".data.map Char.toNat)
    (h2 : sch.map (fun c => lowerN c.toNat) ≠ "https".data.map Char.toNat) :
    schemeRems (sch ++ ':' :: '/' :: '/' :: mid) = [] := by
  unfold schemeRems
  rw [show ("http".data : List Char) = ['h', 't', 't', 'p'] from rfl]
  rw [matchCI_sep ['h', 't', 't', 'p'] (by decide) sch ('/' :: '/' :: mid) hs]
  rw [show (['h', 't', 't', 'p'] : List Char).length = 4 from rfl]
  by_cases hlen : 4 ≤ sch.length
  · rw [if_pos hlen]
    by_cases htk : (sch.take 4).map (fun c => lowerN c.toNat) =
        (['h', 't', 't', 'p'] : List Char).map Char.toNat
    · rw [if_pos htk]
      cases hdrop : sch.drop 4 with
      | nil =>
        exfalso
        apply h1
        have hall : sch = sch.take 4 := by
          conv_lhs => rw [← List.take_append_drop 4 sch]
          rw [hdrop, List.append_nil]
        rw [hall, htk]
      | cons g tl2 =>
        have hg : isSchemeOkChar g = true := by
          refine hs g ?_
          have : g ∈ sch.drop 4 := by rw [hdrop]; exact List.mem_cons_self ..
          exact List.mem_of_mem_drop this
        have hgcolon := schemeOkChar_ne_colon g hg
        show ((match matchCI "://".data (g :: tl2 ++ ':' :: '/' :: '/' :: mid) with
          | some r2 => [r2]
          | none => []) ++
          (match matchCI "s://".data (g :: tl2 ++ ':' :: '/' :: '/' :: mid) with
          | some r2 => [r2]
          | none => [])) = []
        have e1 : matchCI "://".data (g :: tl2 ++ ':' :: '/' :: '/' :: mid) = none := by
          show (if lowerN g.toNat = ':'.toNat then
            matchCI ['/', '/'] (tl2 ++ ':' :: '/' :: '/' :: mid) else none) = none
          rw [if_neg (by exact fun hq => hgcolon hq)]
        have e2 : matchCI "s://".data (g :: tl2 ++ ':' :: '/' :: '/' :: mid) = none := by
          show (if lowerN g.toNat = 's'.toNat then
            matchCI [':', '/', '/'] (tl2 ++ ':' :: '/' :: '/' :: mid) else none) = none
          by_cases hgs : lowerN g.toNat = 's'.toNat
          · rw [if_pos hgs]
            cases tl2 with
            | nil =>
              exfalso
              apply h2
              have hall : sch = sch.take 4 ++ [g] := by
                conv_lhs => rw [← List.take_append_drop 4 sch]
                rw [hdrop]
              rw [hall, List.map_append, htk]
              simp only [List.map_cons, List.map_nil, hgs]
              rfl
            | cons g2 tl3 =>
              have hg2 : isSchemeOkChar g2 = true := by
                refine hs g2 ?_
                have : g2 ∈ sch.drop 4 := by
                  rw [hdrop]
                  exact List.mem_cons_of_mem _ (List.mem_cons_self ..)
                exact List.mem_of_mem_drop this
              show (if lowerN g2.toNat = ':'.toNat then
                matchCI ['/', '/'] (tl3 ++ ':' :: '/' :: '/' :: mid) else none) = none
              rw [if_neg (by exact fun hq => schemeOkChar_ne_colon g2 hg2 hq)]
          · rw [if_neg hgs]
        rw [e1, e2]
        rfl
    · rw [if_neg htk]
  · rw [if_neg hlen]

/-- The whole regex fails on such inputs, trailing-newline allowance included. -/
theorem scheme_reject (sch rest : List Char)
    (hs : ∀ c ∈ sch, isSchemeOkChar c = true)
    (h1 : sch.map (fun c => lowerN c.toNat) ≠ "http".data.map Char.toNat)
    (h2 : sch.map (fun c => lowerN c.toNat) ≠ "https".data.map Char.toNat) :
    is_url_valid ⟨sch ++ ':' :: '/' :: '/' :: rest⟩ = false := by
  have hcore : ∀ (m : List Char), urlCoreMatch (sch ++ ':' :: '/' :: '/' :: m) = false := by
    intro m
    unfold urlCoreMatch
    rw [schemeRems_sep_nil sch m hs h1 h2]
    rfl
  unfold is_url_valid
  show (urlCoreMatch (sch ++ ':' :: '/' :: '/' :: rest) || _) = false
  rw [hcore rest]
  simp only [Bool.false_or]
  by_cases hg : (sch ++ ':' :: '/' :: '/' :: rest).getLast? = some '\n'
  · rw [if_pos hg]
    cases rest with
    | nil =>
      exfalso
      rw [show sch ++ [':', '/', '/'] = sch ++ ':' :: '/' :: '/' :: [] from rfl] at hg
      rw [show (sch ++ ':' :: '/' :: '/' :: [] : List Char) =
        sch ++ [':', '/', '/'] from rfl, List.getLast?_append] at hg
      simp at hg
    | cons r0 rr =>
      rw [show (sch ++ ':' :: '/' :: '/' :: (r0 :: rr) : List Char) =
        (sch ++ [':', '/', '/']) ++ (r0 :: rr) from by simp]
      rw [List.dropLast_append_of_ne_nil _ (by simp)]
      rw [show ((sch ++ [':', '/', '/']) ++ (r0 :: rr).dropLast : List Char) =
        sch ++ ':' :: '/' :: '/' :: (r0 :: rr).dropLast from by simp]
      exact hcore _
  · rw [if_neg hg]

/-- C6, counterexample: `is_url_valid` does not return false for every URL with a
malformed host: `http://a.b-` is accepted via the `[A-Z0-9-]{2,}` final-label
alternative, although its host `a.b-` (final label ending in a hyphen) is neither
a domain name, nor `localhost`, nor a dotted IPv4 per the claim's description of
well-formed hosts. -/
theorem c6_counterexample :
    is_url_valid "http://a.b-" = true ∧ specWellFormedHost "a.b-" = false ∧
    urlparseNetloc "http://a.b-" = "a.b-" :=
  ⟨by decide, by decide, by decide⟩

/-- C6, amended: `is_url_valid` returns true for every member of the structured
class of valid absolute http(s) URLs (well-formed LDH host labels, a 2-6 letter
TLD, `localhost` or a dotted quad; optional port; optional path/query without
whitespace; host classes case-insensitive), and it returns false for every URL
whose scheme consists of scheme characters but does not lower-case to `http` or
`https` (e.g. `ftp://...`); it does not, however, reject every malformed host
(see the counterexample). -/
theorem c6_amended :
    (∀ u : GoodUrl, is_url_valid ⟨renderUrl u⟩ = true) ∧
    (∀ sch rest : List Char, (∀ c ∈ sch, isSchemeOkChar c = true) →
      sch.map (fun c => lowerN c.toNat) ≠ "http".data.map Char.toNat →
      sch.map (fun c => lowerN c.toNat) ≠ "https".data.map Char.toNat →
      is_url_valid ⟨sch ++ ':' :: '/' :: '/' :: rest⟩ = false) :=
  ⟨goodUrl_accepted, fun sch rest hs h1 h2 => scheme_reject sch rest hs h1 h2⟩

/-- C6 witness: the amended statement at a concrete accepted URL
(`http://Exa.b.com:80/path?q=1`) and a concrete rejected scheme (`ftp`). -/
theorem c6_amended_witness :
    is_url_valid ⟨renderUrl goodUrlEx⟩ = true ∧
    is_url_valid ⟨"ftp".data ++ ':' :: '/' :: '/' :: "example.com".data⟩ = false :=
  ⟨c6_amended.1 goodUrlEx,
   c6_amended.2 "ftp".data "example.com".data (by decide) (by decide) (by decide)⟩
